import Mathlib

/-!
Shallow embedding of the unipackage/datastore core in Lean 4.

The embedding covers:
* a model of JavaScript runtime values (`JsValue`), JS objects being
  insertion-ordered association lists of string keys;
* the tagged result type of @unipackage/utils (`JsResult`);
* the QueryFilter compiler `buildQuery` of
  src/engine/mongo/datastore/MongooseDataStore.ts;
* the helper `GetQueryConditionsByUniqueIndexes` and the upsert algorithm
  `CreateOrupdateByUniqueIndexes` of src/datastore (together with the
  `AbstractDatastore` wrappers they call through);
* the `DataStoreContainer` of the container module (register / resolve /
  destroy with lifecycle hooks).

Recursive types are written as mutual inductives (instead of nesting
`List`/`Option`) so that every function is structural and every concrete
computation reduces in the kernel.
-/

/-! ## JavaScript values -/

mutual

/-- Model of a JavaScript runtime value: primitives, objects (insertion-ordered
string-keyed field lists) and arrays. -/
inductive JsValue where
  | undef : JsValue
  | null : JsValue
  | boolV (b : Bool) : JsValue
  | num (n : Int) : JsValue
  | str (s : String) : JsValue
  | obj (fields : JsFields) : JsValue
  | arr (elems : JsElems) : JsValue
  deriving DecidableEq, Repr

/-- Field list of a JavaScript object, in insertion order. -/
inductive JsFields where
  | nil : JsFields
  | fcons (key : String) (value : JsValue) (rest : JsFields) : JsFields
  deriving DecidableEq, Repr

/-- Element list of a JavaScript array. -/
inductive JsElems where
  | enil : JsElems
  | econs (head : JsValue) (tail : JsElems) : JsElems
  deriving DecidableEq, Repr

end

/-- Property read `o[k]` on an object: the value of the first field named `k`,
or `undefined` when the field is absent. -/
def getKey : JsFields → String → JsValue
  | .nil, _ => JsValue.undef
  | .fcons k v rest, key => if k = key then v else getKey rest key

/-- Property write `o[k] = v` on an object: overwrites the value in place when
the key exists (keeping its position), otherwise appends the field. -/
def setKey : JsFields → String → JsValue → JsFields
  | .nil, key, v => .fcons key v .nil
  | .fcons k w rest, key, v =>
    if k = key then .fcons k v rest else .fcons k w (setKey rest key v)

/-- Key-presence test (`hasOwnProperty`). -/
def hasKey : JsFields → String → Bool
  | .nil, _ => false
  | .fcons k _ rest, key => k = key || hasKey rest key

/-- Shallow merge `Object.assign(q, r)`: every field of `r` is written onto
`q` in order. -/
def objAssign : JsFields → JsFields → JsFields
  | q, .nil => q
  | q, .fcons k v rest => objAssign (setKey q k v) rest

/-- JavaScript truthiness of a value. -/
def jsTruthy : JsValue → Bool
  | JsValue.undef => false
  | .null => false
  | .boolV b => b
  | .num n => n != 0
  | .str s => s ≠ ""
  | .obj _ => true
  | .arr _ => true

mutual

/-- How a single value renders inside `Array.prototype.join`: like JavaScript
string conversion, except that `undefined` and `null` render as the empty
string. -/
def joinElemToString : JsValue → String
  | JsValue.undef => ""
  | .null => ""
  | .boolV b => if b then "true" else "false"
  | .num n => toString n
  | .str s => s
  | .obj _ => "[object Object]"
  | .arr es => jsElemsToString es

/-- String conversion of the elements of an array (comma-joined). -/
def jsElemsToString : JsElems → String
  | .enil => ""
  | .econs v .enil => joinElemToString v
  | .econs v tail => joinElemToString v ++ "," ++ jsElemsToString tail

end

/-- JavaScript string conversion of a value (as in template literals). -/
def jsToString : JsValue → String
  | JsValue.undef => "undefined"
  | .null => "null"
  | v => joinElemToString v

/-! ## JSON round trip and the duplicate-key sentinel test -/

/-- Stand-in for the SyntaxError object thrown by `JSON.parse` on
non-JSON input. -/
def syntaxErrorVal : JsValue := .obj (.fcons "name" (.str "SyntaxError") .nil)

/-- Stand-in for the TypeError object thrown by a property access on `null`. -/
def typeErrorVal : JsValue := .obj (.fcons "name" (.str "TypeError") .nil)

mutual

/-- Value-level effect of `JSON.parse(JSON.stringify(v))` for a defined `v`:
identity on JSON primitives, object fields with `undefined` values are
dropped, `undefined` array elements become `null`. -/
def jsonRoundV : JsValue → JsValue
  | JsValue.undef => .null
  | .null => .null
  | .boolV b => .boolV b
  | .num n => .num n
  | .str s => .str s
  | .obj fs => .obj (jsonRoundF fs)
  | .arr es => .arr (jsonRoundE es)

/-- JSON round trip of object fields (drops `undefined`-valued fields). -/
def jsonRoundF : JsFields → JsFields
  | .nil => .nil
  | .fcons k v rest =>
    if v = JsValue.undef then jsonRoundF rest
    else .fcons k (jsonRoundV v) (jsonRoundF rest)

/-- JSON round trip of array elements (`undefined` serializes as `null`). -/
def jsonRoundE : JsElems → JsElems
  | .enil => .enil
  | .econs v t => .econs (jsonRoundV v) (jsonRoundE t)

end

/-- Model of `JSON.parse(JSON.stringify(e))` applied to an error slot:
when the slot is absent (or holds `undefined`), `JSON.stringify` yields the
value `undefined`, so `JSON.parse` receives the string "undefined" and throws
a SyntaxError; otherwise the round-tripped value is returned. -/
def jsonParseStringify : Option JsValue → Except JsValue JsValue
  | none => .error syntaxErrorVal
  | some JsValue.undef => .error syntaxErrorVal
  | some v => .ok (jsonRoundV v)

/-- Property access `v.code`: throws a TypeError on `null`, yields `undefined`
on other non-objects, and reads the field on objects. -/
def dotCode : JsValue → Except JsValue JsValue
  | .null => .error typeErrorVal
  | JsValue.undef => .error typeErrorVal
  | .obj fs => .ok (getKey fs "code")
  | _ => .ok JsValue.undef

/-- Model of the test on line 22 of src/datastore/index.ts:
the expression JSON.parse(JSON.stringify(createResult.error)).code === 11000,
which may throw (the throw is caught by the surrounding try). -/
def errorCode11000 (e : Option JsValue) : Except JsValue Bool := do
  let parsed ← jsonParseStringify e
  let c ← dotCode parsed
  pure (c == JsValue.num 11000)

/-! ## The external equality helper (from @unipackage/utils) -/

/-- Insert a field into a key-sorted field list, keeping it sorted by key. -/
def insertField (k : String) (v : JsValue) : JsFields → JsFields
  | .nil => .fcons k v .nil
  | .fcons k2 v2 rest =>
    match compare k k2 with
    | .gt => .fcons k2 v2 (insertField k v rest)
    | _ => .fcons k v (.fcons k2 v2 rest)

/-- Sort a field list by key (insertion sort). -/
def sortFields : JsFields → JsFields
  | .nil => .nil
  | .fcons k v rest => insertField k v (sortFields rest)

mutual

/-- Normalize a value by recursively sorting every object field list by key,
so that two objects are normal-form-equal exactly when they are structurally
equal up to field order. -/
def normV : JsValue → JsValue
  | JsValue.undef => JsValue.undef
  | .null => .null
  | .boolV b => .boolV b
  | .num n => .num n
  | .str s => .str s
  | .obj fs => .obj (sortFields (normF fs))
  | .arr es => .arr (normE es)

/-- Normalize the values of a field list. -/
def normF : JsFields → JsFields
  | .nil => .nil
  | .fcons k v rest => .fcons k (normV v) (normF rest)

/-- Normalize the elements of an array. -/
def normE : JsElems → JsElems
  | .enil => .enil
  | .econs v t => .econs (normV v) (normE t)

end

/-- Modelled from the spec: the helper equal(a, b, fields?) imported from the
external package @unipackage/utils, whose source is not part of this
repository. The spec describes it as a deep, order-insensitive structural
comparison (field order in the operand must not affect the result), with an
optional field-subset restriction that the upsert never supplies
(whole-object comparison). Implemented here by comparing key-sorted normal
forms. -/
def jsEqual (a b : JsFields) : Bool := normV (.obj a) == normV (.obj b)

/-! ## The tagged result type of @unipackage/utils -/

/-- The Result of @unipackage/utils: a tag plus optional payload and optional
error value (interface Result with fields ok, data?, error?). -/
structure JsResult (α : Type) where
  ok : Bool
  data : Option α := none
  error : Option JsValue := none
  deriving DecidableEq, Repr

/-- Convenience: a success result carrying a payload and no error slot. -/
def okOf {α : Type} (a : α) : JsResult α := { ok := true, data := some a }

/-- Convenience: a failure result carrying an optional error value. -/
def failOf {α : Type} (e : Option JsValue) : JsResult α := { ok := false, error := e }

/-- The JavaScript fallback pattern for an error slot, as in
uniqueIndexesResult?.error || fallback: the error value when present and
truthy, the fallback otherwise. -/
def errOrElse (e : Option JsValue) (fallback : JsValue) : JsValue :=
  match e with
  | some v => if jsTruthy v then v else fallback
  | none => fallback

/-! ## Storage engine model and the AbstractDatastore wrappers -/

/-- A storage engine (the IDataStore the DataStore wraps), modelled as pure
oracles: each method is a function from its arguments to the result of one
call. Entities are JavaScript objects (JsFields). The query filter the upsert
passes to find and update has only its conditions field set, so filters are
passed as their conditions list. The optional getUniqueIndexes capability is
none when the engine does not implement the method. -/
structure EngineModel where
  create : JsFields → JsResult JsFields
  find : List JsFields → JsResult (List JsFields)
  update : List JsFields → JsFields → JsResult (List JsFields)
  getUniqueIndexes : Option (JsResult (List String))

/-- AbstractDatastore.create: delegate and re-wrap (src/datastore/abstract). -/
def createA (eng : EngineModel) (entity : JsFields) : JsResult JsFields :=
  let createResult := eng.create entity
  if createResult.ok then { ok := true, data := createResult.data }
  else { ok := false, error := createResult.error }

/-- AbstractDatastore.find: delegate and re-wrap. -/
def findA (eng : EngineModel) (queryFilter : List JsFields) : JsResult (List JsFields) :=
  let result := eng.find queryFilter
  if result.ok then { ok := true, data := result.data }
  else { ok := false, error := result.error }

/-- AbstractDatastore.update: delegate and re-wrap. -/
def updateA (eng : EngineModel) (queryFilter : List JsFields) (updateData : JsFields) :
    JsResult (List JsFields) :=
  let result := eng.update queryFilter updateData
  if result.ok then { ok := true, data := result.data }
  else { ok := false, error := result.error }

/-- AbstractDatastore.getUniqueIndexes: delegates when the wrapped engine
implements the method, otherwise fails with the fixed message. -/
def getUniqueIndexesA (eng : EngineModel) : JsResult (List String) :=
  match eng.getUniqueIndexes with
  | some r => r
  | none => { ok := false, error := some (.str "getUniqueIndexes is not implemented") }

/-! ## GetQueryConditionsByUniqueIndexes and the query filter builder -/

/-- The exported helper of src/datastore/interface: builds one single-field
condition per unique-index field whose value in data is defined; with an
undefined or empty index list it returns the one-element list holding a
shallow copy of data. -/
def GetQueryConditionsByUniqueIndexes (data : JsFields) (uniqueIndexes : Option (List String)) :
    JsResult (List JsFields) :=
  match uniqueIndexes with
  | none => { ok := true, data := some [data] }
  | some idxs =>
    if idxs.length = 0 then { ok := true, data := some [data] }
    else
      let queryConditions := idxs.foldl (fun acc uniqueIndex =>
        let value := getKey data uniqueIndex
        if value ≠ JsValue.undef then acc ++ [JsFields.fcons uniqueIndex value .nil]
        else acc) []
      { ok := queryConditions.length ≠ 0, data := some queryConditions }

/-- DataStore.getQueryFilterByUniqueIndexes (src/datastore/index.ts): fetch
the unique indexes through the AbstractDatastore wrapper, then build the
conditions of the query filter. The returned filter is represented by its
conditions list, its only populated field. -/
def getQueryFilterByUniqueIndexes (eng : EngineModel) (data : JsFields) :
    JsResult (List JsFields) :=
  let uniqueIndexesResult := getUniqueIndexesA eng
  if !uniqueIndexesResult.ok || uniqueIndexesResult.data.isNone
      || (uniqueIndexesResult.data.getD []).length = 0 then
    { ok := false,
      error := some (errOrElse uniqueIndexesResult.error (.str "Failed to fetch unique indexes")) }
  else
    let queryConditionsResult := GetQueryConditionsByUniqueIndexes data uniqueIndexesResult.data
    if !queryConditionsResult.ok || queryConditionsResult.data.isNone then
      { ok := false, error := queryConditionsResult.error }
    else
      { ok := true, data := queryConditionsResult.data }

/-! ## The upsert: CreateOrupdateByUniqueIndexes -/

/-- DataStore.shouldUpdate: an update is needed exactly when the whole-object
equality check fails (the optional fields restriction is not supplied). -/
def shouldUpdate (existingData newData : JsFields) : Bool :=
  !jsEqual existingData newData

/-- Counts the engine calls an upsert run performs. -/
structure Trace where
  findCalls : Nat := 0
  updateCalls : Nat := 0
  deriving DecidableEq, Repr

/-- The reconciliation loop of CreateOrupdateByUniqueIndexes over the entities
the find returned: entities needing an update trigger an update call (whose
result is appended); equal entities are passed through; an update failure
aborts the loop with that failure. Returns the loop result together with the
number of update calls performed. The updateResult argument is the value of
one update call (the loop calls update with the same filter and data each
iteration, and the engine is a pure oracle). -/
def upsertLoop (updateResult : JsResult (List JsFields)) (data : JsFields) :
    List JsFields → JsResult (List JsFields) × Nat
  | [] => ({ ok := true, data := some [] }, 0)
  | existingData :: rest =>
    if shouldUpdate existingData data then
      if updateResult.ok && updateResult.data.isSome then
        let (r, n) := upsertLoop updateResult data rest
        (if r.ok then { ok := true, data := some (updateResult.data.getD [] ++ r.data.getD []) }
         else r, n + 1)
      else ({ ok := false, error := updateResult.error }, 1)
    else
      let (r, n) := upsertLoop updateResult data rest
      (if r.ok then { ok := true, data := some (existingData :: r.data.getD []) } else r, n)

/-- The reconciliation path of CreateOrupdateByUniqueIndexes (the body of the
constraint-violation branch, lines 24-60 of src/datastore/index.ts): build
the query filter from the unique indexes, find the existing entities, and run
the reconciliation loop. -/
def reconcileUpsert (eng : EngineModel) (data : JsFields) :
    JsResult (List JsFields) × Trace :=
  let queryFilterResult := getQueryFilterByUniqueIndexes eng data
  if !queryFilterResult.ok || queryFilterResult.data.isNone then
    ({ ok := false, error := queryFilterResult.error }, {})
  else
    let queryFilter := queryFilterResult.data.getD []
    let existingDataArrayResult := findA eng queryFilter
    if !existingDataArrayResult.ok || existingDataArrayResult.data.isNone then
      ({ ok := false, error := existingDataArrayResult.error }, { findCalls := 1 })
    else
      let (r, n) :=
        upsertLoop (updateA eng queryFilter data) data
          (existingDataArrayResult.data.getD [])
      (r, { findCalls := 1, updateCalls := n })

/-- DataStore.CreateOrupdateByUniqueIndexes (src/datastore/index.ts), together
with a trace of the find and update calls it performs. -/
def CreateOrupdateByUniqueIndexes (eng : EngineModel) (data : JsFields) :
    JsResult (List JsFields) × Trace :=
  let createResult := createA eng data
  if createResult.ok && createResult.data.isSome then
    ({ ok := true, data := some [createResult.data.getD .nil] }, {})
  else
    match errorCode11000 createResult.error with
    | .error thrown => ({ ok := false, error := some thrown }, {})
    | .ok isDup =>
      if isDup then reconcileUpsert eng data
      else ({ ok := false, error := createResult.error }, {})

/-! ## The QueryFilter model and the Mongoose query compiler -/

/-- Length of an array value. -/
def elemsLength : JsElems → Nat
  | .enil => 0
  | .econs _ t => elemsLength t + 1

mutual

/-- The recursive QueryFilter of src/datastore/interface, restricted to its
predicate-level fields (conditions, and, or, not); pagination, sort and
projection are applied outside buildQuery. Conditions are JavaScript objects.
The optional filter lists are spelled as dedicated mutual types so that the
compiler below is structurally recursive. -/
inductive QueryFilter where
  | mk (conditions : Option (List JsFields)) (andF : OptFilterList)
       (orF : OptFilterList) (notF : OptFilter) : QueryFilter

/-- An optional list of sub-filters (the and / or fields). -/
inductive OptFilterList where
  | none : OptFilterList
  | some (l : FilterList) : OptFilterList

/-- A list of sub-filters. -/
inductive FilterList where
  | nil : FilterList
  | cons (head : QueryFilter) (tail : FilterList) : FilterList

/-- An optional sub-filter (the not field). -/
inductive OptFilter where
  | none : OptFilter
  | some (f : QueryFilter) : OptFilter

end

/-- Key extraction Object.keys(condition)[0]: the first own key of the
condition; on an empty condition the undefined key coerces to the property
name "undefined". -/
def firstKey : JsFields → String
  | .nil => "undefined"
  | .fcons k _ _ => k

/-- One iteration of the conditions loop of buildQuery: take the first own
key of the condition and write its value onto the accumulator. -/
def condAssign (query : JsFields) (condition : JsFields) : JsFields :=
  let field := firstKey condition
  let value := getKey condition field
  setKey query field value

/-- The conditions step of buildQuery (lines 105-112 of
MongooseDataStore.ts). -/
def condStep : JsFields → Option (List JsFields) → JsFields
  | query, Option.none => query
  | query, Option.some conditions => conditions.foldl condAssign query

/-- The not step of buildQuery applied to the compiled not-result: every
field of the compiled result is written onto the accumulator wrapped in a
$ne operator (lines 132-143 of MongooseDataStore.ts). -/
def notFold : JsFields → JsFields → JsFields
  | query, .nil => query
  | query, .fcons k v rest => notFold (setKey query k (.obj (.fcons "$ne" v .nil))) rest

mutual

/-- MongooseDataStore.buildQuery: compile a filter into a flat Mongo filter
object, processing conditions, then and, then or, then not. -/
def buildQuery : QueryFilter → JsFields
  | .mk conditions andF orF notF =>
    notStep (orStep (andStep (condStep .nil conditions) andF) orF) notF

/-- The and step: recursively compile each sub-filter and Object.assign it
onto the accumulator. -/
def andStep : JsFields → OptFilterList → JsFields
  | query, .none => query
  | query, .some fs => andFold query fs

/-- Fold of the and step over the sub-filter list. -/
def andFold : JsFields → FilterList → JsFields
  | query, .nil => query
  | query, .cons f rest => andFold (objAssign query (buildQuery f)) rest

/-- The or step: compile each branch, and when the branch list is non-empty
attach the array under $or. -/
def orStep : JsFields → OptFilterList → JsFields
  | query, .none => query
  | query, .some fs =>
    let orConditions := orMap fs
    if 0 < elemsLength orConditions then setKey query "$or" (.arr orConditions) else query

/-- Compilation of the or branches into an array of filter objects. -/
def orMap : FilterList → JsElems
  | .nil => .enil
  | .cons f rest => .econs (.obj (buildQuery f)) (orMap rest)

/-- The not step: compile the nested filter and negate it field by field. -/
def notStep : JsFields → OptFilter → JsFields
  | query, .none => query
  | query, .some f => notFold query (buildQuery f)

end

/-! ## The DataStoreContainer -/

/-- Lifecycle hooks of DatastoreContainerOptions. A supplied hook is a pure
callback: each invocation returns the recorded result. -/
structure Lifecycle where
  beforeCreate : Option (JsResult Unit) := none
  afterCreate : Option (JsResult Unit) := none
  onDestroy : Option (JsResult Unit) := none
  deriving DecidableEq, Repr

/-- DatastoreContainerOptions: registration mode flags and hooks. -/
structure ContainerOptions where
  singleton : Option Bool := none
  lifecycle : Option Lifecycle := none
  lazy : Option Bool := none
  deriving DecidableEq, Repr

/-- A datastore instance as the container sees it: an identity plus an
optional onDestroy method (each invocation returns the recorded result). -/
structure DSInstance where
  id : Nat
  onDestroy : Option (JsResult Unit) := none
  deriving DecidableEq, Repr

/-- A value stored in the instance map: either a datastore itself, or one of
the two lazy wrapper objects carrying a get closure. The singleton wrapper
closure captures the key and the lifecycle options (its get invokes
beforeCreate); the transient wrapper closure only captures the datastore. -/
inductive StoredValue where
  | direct (ds : DSInstance) : StoredValue
  | lazySingletonWrap (key : String) (lifecycle : Option Lifecycle) (ds : DSInstance) : StoredValue
  | lazyTransientWrap (ds : DSInstance) : StoredValue
  deriving DecidableEq, Repr

mutual

/-- DataStoreContainer state: the instance map (insertion-ordered) and the
child container list. -/
inductive Container where
  | mk (instances : List (String × StoredValue)) (children : ContainerList) : Container

/-- A list of child containers. -/
inductive ContainerList where
  | nil : ContainerList
  | cons (head : Container) (tail : ContainerList) : ContainerList

end

/-- Map.get on the instance map. -/
def mapGet : List (String × StoredValue) → String → Option StoredValue
  | [], _ => Option.none
  | (k, v) :: rest, key => if k = key then Option.some v else mapGet rest key

/-- Map.has on the instance map. -/
def mapHas (m : List (String × StoredValue)) (key : String) : Bool :=
  (mapGet m key).isSome

/-- Map.set on the instance map: overwrites in place, else appends. -/
def mapSet : List (String × StoredValue) → String → StoredValue → List (String × StoredValue)
  | [], key, v => [(key, v)]
  | (k, w) :: rest, key, v =>
    if k = key then (k, v) :: rest else (k, w) :: mapSet rest key v

/-- The instance map of a container. -/
def Container.instances : Container → List (String × StoredValue)
  | .mk instances _ => instances

/-- The child list of a container. -/
def Container.children : Container → ContainerList
  | .mk _ children => children

/-- String interpolation of an error slot inside a template literal. -/
def tmplErr (e : Option JsValue) : String :=
  match e with
  | Option.none => "undefined"
  | Option.some v => jsToString v

/-- The beforeCreate failure message built by the register functions. -/
def beforeCreateMsg (key : String) (e : Option JsValue) : String :=
  "Error in beforeCreate lifecycle callback for \x27" ++ key ++ "\x27: " ++ tmplErr e

/-- The afterCreate failure message built by the register functions. -/
def afterCreateMsg (key : String) (e : Option JsValue) : String :=
  "Error in afterCreate lifecycle callback for \x27" ++ key ++ "\x27: " ++ tmplErr e

/-- The trailing afterCreate block shared verbatim by registerSingleton and
registerTransient: invoke afterCreate when supplied; a failure yields the
descriptive error but the container keeps the state already written. -/
def afterCreateCheck (key : String) (options : ContainerOptions) (c2 : Container) :
    JsResult Unit × Container :=
  match options.lifecycle.bind (fun l => l.afterCreate) with
  | Option.some r =>
    if !r.ok then
      ({ ok := false, error := some (.str (afterCreateMsg key r.error)) }, c2)
    else ({ ok := true }, c2)
  | Option.none => ({ ok := true }, c2)

/-- DataStoreContainer.registerSingleton: reject an existing key; lazy mode
stores the get wrapper (deferring beforeCreate); eager mode runs beforeCreate
first (a failure returns before the instance is stored), then stores, then
runs the afterCreate block. Returns the result and the updated container. -/
def registerSingleton (c : Container) (key : String) (dataStore : DSInstance)
    (options : ContainerOptions) : JsResult Unit × Container :=
  match c with
  | .mk instances children =>
    if mapHas instances key then
      ({ ok := false,
         error := some (.str ("Singleton with key \x27" ++ key ++ "\x27 is already registered.")) },
       c)
    else if options.lazy.getD false then
      afterCreateCheck key options
        (.mk (mapSet instances key (.lazySingletonWrap key options.lifecycle dataStore)) children)
    else
      match options.lifecycle.bind (fun l => l.beforeCreate) with
      | Option.some r =>
        if !r.ok then
          ({ ok := false, error := some (.str (beforeCreateMsg key r.error)) }, c)
        else
          afterCreateCheck key options (.mk (mapSet instances key (.direct dataStore)) children)
      | Option.none =>
        afterCreateCheck key options (.mk (mapSet instances key (.direct dataStore)) children)

/-- DataStoreContainer.registerTransient: runs beforeCreate first (a failure
returns before the instance is stored), then stores (replacing any existing
entry; lazy mode stores the plain get wrapper), then runs the afterCreate
block. -/
def registerTransient (c : Container) (key : String) (dataStore : DSInstance)
    (options : ContainerOptions) : JsResult Unit × Container :=
  match c with
  | .mk instances children =>
    let stored : StoredValue :=
      if options.lazy.getD false then .lazyTransientWrap dataStore else .direct dataStore
    match options.lifecycle.bind (fun l => l.beforeCreate) with
    | Option.some r =>
      if !r.ok then
        ({ ok := false, error := some (.str (beforeCreateMsg key r.error)) }, c)
      else
        afterCreateCheck key options (.mk (mapSet instances key stored) children)
    | Option.none =>
      afterCreateCheck key options (.mk (mapSet instances key stored) children)

/-- DataStoreContainer.register: dispatch on the singleton flag (default
true). -/
def register (c : Container) (key : String) (dataStore : DSInstance)
    (options : ContainerOptions) : JsResult Unit × Container :=
  if options.singleton.getD true then registerSingleton c key dataStore options
  else registerTransient c key dataStore options

/-- Invocation of the get closure of a stored value during resolve, paired
with the number of beforeCreate invocations it performs: a direct instance is
returned as-is (no closure); the lazy singleton wrapper invokes beforeCreate
when supplied and fails with the descriptive message when that hook fails;
the lazy transient wrapper returns the instance without invoking anything. -/
def evalStored : StoredValue → JsResult DSInstance × Nat
  | .direct ds => ({ ok := true, data := some ds }, 0)
  | .lazyTransientWrap ds => ({ ok := true, data := some ds }, 0)
  | .lazySingletonWrap key lifecycle ds =>
    match lifecycle.bind (fun l => l.beforeCreate) with
    | Option.none => ({ ok := true, data := some ds }, 0)
    | Option.some r =>
      if !r.ok then
        ({ ok := false, error := some (.str (beforeCreateMsg key r.error)) }, 1)
      else ({ ok := true, data := some ds }, 1)

mutual

/-- DataStoreContainer.resolve, paired with the number of beforeCreate
invocations the resolution performs: local instances first (invoking a stored
get closure), then the children in order, returning the first success. -/
def resolve (c : Container) (key : String) : JsResult DSInstance × Nat :=
  match c with
  | .mk instances children =>
    match mapGet instances key with
    | Option.some inst => evalStored inst
    | Option.none => resolveChildren children key

/-- Fallthrough of resolve over the child list. -/
def resolveChildren : ContainerList → String → JsResult DSInstance × Nat
  | .nil, key =>
    ({ ok := false, error := some (.str ("No instance found for key \x27" ++ key ++ "\x27")) }, 0)
  | .cons child tail, key =>
    let (r, n) := resolve child key
    if r.ok then (r, n)
    else
      let (r2, n2) := resolveChildren tail key
      (r2, n + n2)

end

/-- The onDestroy results collected from the local instances: one per stored
value that has an onDestroy method (only a directly stored datastore can; the
lazy wrapper objects have no onDestroy property). -/
def destroyLocal : List (String × StoredValue) → List (JsResult Unit)
  | [] => []
  | (_, .direct ds) :: rest =>
    match ds.onDestroy with
    | Option.some r => r :: destroyLocal rest
    | Option.none => destroyLocal rest
  | (_, _) :: rest => destroyLocal rest

/-- Aggregation of the collected destroy results, as on lines 153-160 of the
container source: success when all succeeded, otherwise a single failure
whose error is the newline-join of the failing results' error values. -/
def aggregateDestroy (results : List (JsResult Unit)) : JsResult Unit :=
  if results.all (fun r => r.ok) then { ok := true }
  else
    { ok := false,
      error := some (.str (String.intercalate "\n"
        ((results.filter (fun r => !r.ok)).map (fun r =>
          match r.error with
          | Option.none => ""
          | Option.some v => joinElemToString v)))) }

mutual

/-- DataStoreContainer.destroy: collect the onDestroy results of the local
instances, then the destroy results of the children, clear the instance map
and the child list, and aggregate the failures. Returns the result and the
(always empty) container. -/
def destroy (c : Container) : JsResult Unit × Container :=
  match c with
  | .mk instances children =>
    (aggregateDestroy (destroyLocal instances ++ destroyChildren children),
     .mk [] .nil)

/-- The destroy results of the child containers, in order. -/
def destroyChildren : ContainerList → List (JsResult Unit)
  | .nil => []
  | .cons child tail => (destroy child).1 :: destroyChildren tail

end

/-! ## Statement-side helpers (used by the theorems below to phrase the
claims; they are not part of the source embedding) -/

/-- Claim-side characterization for the conditions step: the value the claim
predicts for a field after compiling the conditions list with last-write-wins
per first-own-key, starting from a default. -/
def lastWinsVal (conditions : List JsFields) (k : String) (dflt : JsValue) : JsValue :=
  conditions.foldl (fun acc c => if firstKey c = k then getKey c (firstKey c) else acc) dflt

/-- Plain list view of a child container list. -/
def containersToList : ContainerList → List Container
  | .nil => []
  | .cons c t => c :: containersToList t

/-- The onDestroy hook of a stored value, when the stored object has one
(only directly stored datastores do). -/
def storedHook : StoredValue → Option (JsResult Unit)
  | .direct ds => ds.onDestroy
  | _ => Option.none

/-- How a failing destroy result renders inside the newline join. -/
def destroyMsg (r : JsResult Unit) : String :=
  match r.error with
  | Option.none => ""
  | Option.some v => joinElemToString v

/-- Distinct-key invariant of a field list (real JavaScript objects never
hold two fields of the same name; every query the compiler builds satisfies
it, as proved below). -/
def distinctKeys : JsFields → Bool
  | .nil => true
  | .fcons k _ rest => !hasKey rest k && distinctKeys rest

/-! ## Concrete fixtures used by the witnesses and counterexamples -/

/-- The duplicate-key error object a Mongo engine reports: code 11000. -/
def dupError : JsValue := .obj (.fcons "code" (.num 11000) .nil)

/-- A sample entity with one field k = 5 (the unique-index field). -/
def entW : JsFields := .fcons "k" (.num 5) .nil

/-- Engine whose create succeeds. -/
def engCreateOk : EngineModel :=
  { create := fun e => { ok := true, data := some e },
    find := fun _ => { ok := true, data := some [] },
    update := fun _ _ => { ok := true, data := some [] },
    getUniqueIndexes := some { ok := true, data := some ["k"] } }

/-- Engine whose create fails with the constraint-violation sentinel and
whose find returns the one existing entity, equal to the input. -/
def engDupEqual : EngineModel :=
  { create := fun _ => { ok := false, error := some dupError },
    find := fun _ => { ok := true, data := some [entW] },
    update := fun _ _ => { ok := true, data := some [] },
    getUniqueIndexes := some { ok := true, data := some ["k"] } }

/-- Engine whose create fails with a non-constraint error. -/
def engOtherErr : EngineModel :=
  { create := fun _ => { ok := false, error := some (.str "boom") },
    find := fun _ => { ok := true, data := some [] },
    update := fun _ _ => { ok := true, data := some [] },
    getUniqueIndexes := some { ok := true, data := some ["k"] } }

/-- Engine with a duplicate-key create failure and no getUniqueIndexes
capability. -/
def engNoUnique : EngineModel :=
  { create := fun _ => { ok := false, error := some dupError },
    find := fun _ => { ok := true, data := some [] },
    update := fun _ _ => { ok := true, data := some [] },
    getUniqueIndexes := Option.none }

/-- Engine whose getUniqueIndexes fails with its own error message. -/
def engUniqueFails : EngineModel :=
  { create := fun _ => { ok := false, error := some dupError },
    find := fun _ => { ok := true, data := some [] },
    update := fun _ _ => { ok := true, data := some [] },
    getUniqueIndexes := some { ok := false, error := some (.str "boom") } }

/-- Engine whose getUniqueIndexes succeeds with an empty index list. -/
def engUniqueEmpty : EngineModel :=
  { create := fun _ => { ok := false, error := some dupError },
    find := fun _ => { ok := true, data := some [] },
    update := fun _ _ => { ok := true, data := some [] },
    getUniqueIndexes := some { ok := true, data := some [] } }

/-- Engine whose unique-index field z is absent from the sample entity, so
condition building yields zero conditions. -/
def engNoFields : EngineModel :=
  { create := fun _ => { ok := false, error := some dupError },
    find := fun _ => { ok := true, data := some [] },
    update := fun _ _ => { ok := true, data := some [] },
    getUniqueIndexes := some { ok := true, data := some ["z"] } }

/-- A datastore instance without hooks. -/
def dsA : DSInstance := { id := 1 }

/-- A second datastore instance without hooks. -/
def dsB : DSInstance := { id := 2 }

/-- A datastore instance whose onDestroy hook fails with message x. -/
def dsFail : DSInstance := { id := 3, onDestroy := some { ok := false, error := some (.str "x") } }

/-- An empty container. -/
def emptyC : Container := .mk [] .nil

/-- A hook invocation that fails. -/
def failHook : JsResult Unit := { ok := false, error := some (.str "hook failed") }

/-- A hook invocation that succeeds. -/
def okHook : JsResult Unit := { ok := true }

/-- Registration options: eager singleton with a failing beforeCreate. -/
def optsBeforeFail : ContainerOptions := { lifecycle := some { beforeCreate := some failHook } }

/-- Registration options: eager singleton with a failing afterCreate. -/
def optsAfterFail : ContainerOptions := { lifecycle := some { afterCreate := some failHook } }

/-- Registration options: transient with a failing afterCreate. -/
def optsTransAfterFail : ContainerOptions :=
  { singleton := some false, lifecycle := some { afterCreate := some failHook } }

/-- Registration options: transient with a failing beforeCreate. -/
def optsTransBeforeFail : ContainerOptions :=
  { singleton := some false, lifecycle := some { beforeCreate := some failHook } }

/-- Registration options: lazy singleton with a failing beforeCreate. -/
def optsLazyBeforeFail : ContainerOptions :=
  { lazy := some true, lifecycle := some { beforeCreate := some failHook } }

/-- Registration options: plain transient, no hooks. -/
def optsTrans : ContainerOptions := { singleton := some false }

/-- A lifecycle supplying only a succeeding beforeCreate. -/
def lcB : Lifecycle := { beforeCreate := some okHook }

/-- Registration options: lazy singleton with the beforeCreate hook. -/
def optsLazySing : ContainerOptions := { lazy := some true, lifecycle := some lcB }

/-- Registration options: lazy transient with the beforeCreate hook. -/
def optsLazyTransB : ContainerOptions :=
  { singleton := some false, lazy := some true, lifecycle := some lcB }

/-- A container already holding a singleton under key k. -/
def c6base : Container := .mk [("k", .direct dsA)] .nil

/-- A container holding a lazy singleton wrapper under key k. -/
def cLazy : Container := .mk [("k", .lazySingletonWrap "k" (some lcB) dsA)] .nil

/-- A container with one instance whose onDestroy fails and one cleanly
destroying child. -/
def cDemo : Container := .mk [("a", .direct dsFail)] (.cons (.mk [] .nil) .nil)

/-- The filter not-over-or: not applied to an or of two condition filters. -/
def notOverOrFilter : QueryFilter :=
  .mk Option.none .none .none
    (.some (.mk Option.none .none
      (.some (.cons (.mk (Option.some [.fcons "a" (.num 1) .nil]) .none .none .none)
             (.cons (.mk (Option.some [.fcons "b" (.num 2) .nil]) .none .none .none) .nil)))
      .none))

/-- What De Morgan negation of that or would look like: the conjunction of
the per-branch negations. The compiler provably does not produce it. -/
def deMorganQuery : JsFields :=
  .fcons "a" (.obj (.fcons "$ne" (.num 1) .nil))
    (.fcons "b" (.obj (.fcons "$ne" (.num 2) .nil)) .nil)

/-! ## Helper lemmas -/

/-- Induction principle for field lists (the mutual family blocks the
built-in induction tactic). -/
theorem jsFieldsInduct (P : JsFields → Prop) (h1 : P .nil)
    (h2 : ∀ k v rest, P rest → P (.fcons k v rest)) : ∀ q, P q
  | .nil => h1
  | .fcons k v rest => h2 k v rest (jsFieldsInduct P h1 h2 rest)

/-- Induction principle for filter lists. -/
theorem filterListInduct (P : FilterList → Prop) (h1 : P .nil)
    (h2 : ∀ c t, P t → P (.cons c t)) : ∀ l, P l
  | .nil => h1
  | .cons c t => h2 c t (filterListInduct P h1 h2 t)

/-- Induction principle for child container lists. -/
theorem containerListInduct (P : ContainerList → Prop) (h1 : P .nil)
    (h2 : ∀ c t, P t → P (.cons c t)) : ∀ l, P l
  | .nil => h1
  | .cons c t => h2 c t (containerListInduct P h1 h2 t)

/-- Reading a field after a property write. -/
theorem getKey_setKey (q : JsFields) (k : String) (v : JsValue) (k2 : String) :
    getKey (setKey q k v) k2 = if k = k2 then v else getKey q k2 := by
  induction q using jsFieldsInduct with
  | h1 => by_cases h : k = k2 <;> simp [setKey, getKey, h]
  | h2 a w rest ih =>
    by_cases hak : a = k
    · subst hak
      by_cases h2 : a = k2 <;> simp [setKey, getKey, h2]
    · by_cases h2 : a = k2
      · subst h2
        have hk : ¬ k = a := fun h => hak h.symm
        simp [setKey, getKey, hak, hk]
      · simp [setKey, getKey, hak, h2, ih]

/-- Key presence after a property write. -/
theorem hasKey_setKey (q : JsFields) (k : String) (v : JsValue) (k2 : String) :
    hasKey (setKey q k v) k2 = (decide (k = k2) || hasKey q k2) := by
  induction q using jsFieldsInduct with
  | h1 => simp [setKey, hasKey]
  | h2 a w rest ih =>
    by_cases hak : a = k
    · subst hak
      simp [setKey, hasKey]
    · simp only [setKey, hasKey, if_neg hak, ih]
      cases h2 : decide (a = k2) <;> simp_all

/-- The value of a field after folding the conditions step is the last
matching write onto the accumulator value. -/
theorem getKey_condFold (cs : List JsFields) (q : JsFields) (k : String) :
    getKey (cs.foldl condAssign q) k = lastWinsVal cs k (getKey q k) := by
  induction cs generalizing q with
  | nil => rfl
  | cons c cs ih =>
    show getKey ((cs.foldl condAssign (condAssign q c))) k = _
    rw [ih]
    have : getKey (condAssign q c) k
        = if firstKey c = k then getKey c (firstKey c) else getKey q k := by
      simp [condAssign, getKey_setKey]
    rw [this]
    rfl

/-- Key presence after folding the conditions step. -/
theorem hasKey_condFold (cs : List JsFields) (q : JsFields) (k : String) :
    hasKey (cs.foldl condAssign q) k = (decide (k ∈ cs.map firstKey) || hasKey q k) := by
  induction cs generalizing q with
  | nil => simp
  | cons c cs ih =>
    show hasKey ((cs.foldl condAssign (condAssign q c))) k = _
    rw [ih]
    have : hasKey (condAssign q c) k = (decide (firstKey c = k) || hasKey q k) := by
      simp [condAssign, hasKey_setKey]
    rw [this]
    by_cases h : firstKey c = k
    · subst h
      simp
    · have h2 : ¬ k = firstKey c := fun hh => h hh.symm
      simp [h, h2]

/-- The reconciliation loop over entities all equal to the input: every
entity is passed through untouched and no update call happens. -/
theorem upsertLoop_all_equal (updRes : JsResult (List JsFields)) (data : JsFields)
    (existing : List JsFields) (h : ∀ e ∈ existing, jsEqual e data = true) :
    upsertLoop updRes data existing = ({ ok := true, data := some existing }, 0) := by
  induction existing with
  | nil => rfl
  | cons e rest ih =>
    have he : jsEqual e data = true := h e (List.mem_cons_self e rest)
    have hrest := ih (fun x hx => h x (List.mem_cons_of_mem e hx))
    simp [upsertLoop, shouldUpdate, he, hrest]

/-- The reconciliation loop under a succeeding update call: equal entities
are passed through, each non-equal entity triggers one update call whose
returned entities are appended. -/
theorem upsertLoop_success (updRes : JsResult (List JsFields)) (data : JsFields)
    (existing : List JsFields) (us : List JsFields)
    (hok : updRes.ok = true) (hd : updRes.data = some us) :
    upsertLoop updRes data existing
      = ({ ok := true,
           data := some (existing.flatMap (fun e => if jsEqual e data then [e] else us)) },
         existing.countP (fun e => !jsEqual e data)) := by
  induction existing with
  | nil => rfl
  | cons e rest ih =>
    by_cases he : jsEqual e data = true
    · simp [upsertLoop, shouldUpdate, he, ih, List.countP_cons]
    · have he2 : jsEqual e data = false := by simpa using he
      simp [upsertLoop, shouldUpdate, he2, ih, hok, hd, List.countP_cons]

/-- Reading the key just written into the instance map. -/
theorem mapGet_mapSet_self (m : List (String × StoredValue)) (k : String) (v : StoredValue) :
    mapGet (mapSet m k v) k = some v := by
  induction m with
  | nil => simp [mapSet, mapGet]
  | cons p rest ih =>
    obtain ⟨a, w⟩ := p
    by_cases h : a = k
    · simp [mapSet, mapGet, h]
    · simp [mapSet, mapGet, h, ih]

/-- The collected local onDestroy results are exactly the hooks of the
stored values that have one, in map order. -/
theorem destroyLocal_filterMap (insts : List (String × StoredValue)) :
    destroyLocal insts = insts.filterMap (fun p => storedHook p.2) := by
  induction insts with
  | nil => rfl
  | cons p rest ih =>
    obtain ⟨a, w⟩ := p
    cases w with
    | direct ds =>
      cases h : ds.onDestroy <;> simp [destroyLocal, storedHook, h, ih]
    | lazySingletonWrap k lc ds => simp [destroyLocal, storedHook, ih]
    | lazyTransientWrap ds => simp [destroyLocal, storedHook, ih]

/-- The collected child results are the destroy results of every child, in
order. -/
theorem destroyChildren_map (cl : ContainerList) :
    destroyChildren cl = (containersToList cl).map (fun child => (destroy child).1) := by
  induction cl using containerListInduct with
  | h1 => rfl
  | h2 c t ih => simp [destroyChildren, containersToList, ih]

/-- Condition building appends nothing when every index field is undefined
in the data. -/
theorem gqc_foldl_all_undef (data : JsFields) (idxs : List String) (acc : List JsFields)
    (hall : ∀ i ∈ idxs, getKey data i = JsValue.undef) :
    idxs.foldl (fun acc uniqueIndex =>
      let value := getKey data uniqueIndex
      if value ≠ JsValue.undef then acc ++ [JsFields.fcons uniqueIndex value .nil]
      else acc) acc = acc := by
  induction idxs generalizing acc with
  | nil => rfl
  | cons i rest ih =>
    have hi : getKey data i = JsValue.undef := hall i (List.mem_cons_self i rest)
    simp only [List.foldl, hi]
    simpa using ih acc (fun x hx => hall x (List.mem_cons_of_mem i hx))

/-- With a non-empty index list none of whose fields is defined in the data,
condition building returns a failure with zero conditions and no error
value. -/
theorem gqc_all_undef (data : JsFields) (idxs : List String) (hne : idxs ≠ [])
    (hall : ∀ i ∈ idxs, getKey data i = JsValue.undef) :
    GetQueryConditionsByUniqueIndexes data (some idxs)
      = { ok := false, data := some [], error := none } := by
  have hlen : ¬ idxs.length = 0 := by simpa [List.length_eq_zero] using hne
  show (if idxs.length = 0 then _ else _) = _
  rw [if_neg hlen]
  rw [show (idxs.foldl (fun acc uniqueIndex =>
      let value := getKey data uniqueIndex
      if value ≠ JsValue.undef then acc ++ [JsFields.fcons uniqueIndex value .nil]
      else acc) [] : List JsFields) = [] from gqc_foldl_all_undef data idxs [] hall]
  rfl

/-- Property writes preserve key distinctness. -/
theorem distinctKeys_setKey (q : JsFields) (k : String) (v : JsValue)
    (h : distinctKeys q = true) : distinctKeys (setKey q k v) = true := by
  induction q using jsFieldsInduct with
  | h1 => simp [setKey, distinctKeys, hasKey]
  | h2 a w rest ih =>
    simp only [distinctKeys, Bool.and_eq_true, Bool.not_eq_true'] at h
    by_cases hak : a = k
    · subst hak
      simp [setKey, distinctKeys, h.1, h.2]
    · simp only [setKey, if_neg hak, distinctKeys, Bool.and_eq_true, Bool.not_eq_true']
      refine ⟨?_, ih h.2⟩
      rw [hasKey_setKey]
      have : ¬ k = a := fun hh => hak hh.symm
      simp [this, h.1]

/-- Shallow merging preserves key distinctness. -/
theorem distinctKeys_objAssign (q r : JsFields) (h : distinctKeys q = true) :
    distinctKeys (objAssign q r) = true := by
  induction r using jsFieldsInduct generalizing q with
  | h1 => exact h
  | h2 k v rest ih => exact ih _ (distinctKeys_setKey q k v h)

/-- The conditions fold preserves key distinctness. -/
theorem distinctKeys_condFold (cs : List JsFields) (q : JsFields) (h : distinctKeys q = true) :
    distinctKeys (cs.foldl condAssign q) = true := by
  induction cs generalizing q with
  | nil => exact h
  | cons c cs ih => exact ih _ (distinctKeys_setKey q _ _ h)

/-- The not fold preserves key distinctness. -/
theorem distinctKeys_notFold (ng q : JsFields) (h : distinctKeys q = true) :
    distinctKeys (notFold q ng) = true := by
  induction ng using jsFieldsInduct generalizing q with
  | h1 => exact h
  | h2 k v rest ih => exact ih _ (distinctKeys_setKey q _ _ h)

/-- The conditions step preserves key distinctness. -/
theorem distinctKeys_condStep (conds : Option (List JsFields)) (q : JsFields)
    (h : distinctKeys q = true) : distinctKeys (condStep q conds) = true := by
  cases conds with
  | none => exact h
  | some cs => exact distinctKeys_condFold cs q h

/-- The and step preserves key distinctness. -/
theorem distinctKeys_andStep (andF : OptFilterList) (q : JsFields)
    (h : distinctKeys q = true) : distinctKeys (andStep q andF) = true := by
  cases andF with
  | none => exact h
  | some fs =>
    show distinctKeys (andFold q fs) = true
    induction fs using filterListInduct generalizing q with
    | h1 => exact h
    | h2 f t ih => exact ih _ (distinctKeys_objAssign q _ h)

/-- The or step preserves key distinctness. -/
theorem distinctKeys_orStep (orF : OptFilterList) (q : JsFields)
    (h : distinctKeys q = true) : distinctKeys (orStep q orF) = true := by
  cases orF with
  | none => exact h
  | some fs =>
    show distinctKeys (if _ then setKey q "$or" _ else q) = true
    split
    · exact distinctKeys_setKey q _ _ h
    · exact h

/-- Every compiled query has distinct keys: the compiler only ever writes
through setKey, starting from the empty object. -/
theorem distinctKeys_buildQuery (f : QueryFilter) : distinctKeys (buildQuery f) = true := by
  obtain ⟨conds, andF, orF, notF⟩ := f
  show distinctKeys (notStep (orStep (andStep (condStep .nil conds) andF) orF) notF) = true
  have h0 : distinctKeys (condStep .nil conds) = true := distinctKeys_condStep conds .nil rfl
  have h1 := distinctKeys_andStep andF _ h0
  have h2 := distinctKeys_orStep orF _ h1
  cases notF with
  | none => exact h2
  | some g => exact distinctKeys_notFold (buildQuery g) _ h2

/-- Field-wise description of the not fold: a field present in the compiled
nested result lands on the accumulator wrapped in $ne; other fields of the
accumulator are untouched. -/
theorem getKey_notFold (ng q : JsFields) (k : String) (hd : distinctKeys ng = true) :
    getKey (notFold q ng) k
      = if hasKey ng k then .obj (.fcons "$ne" (getKey ng k) .nil) else getKey q k := by
  induction ng using jsFieldsInduct generalizing q with
  | h1 => simp [notFold, hasKey]
  | h2 k0 v rest ih =>
    simp only [distinctKeys, Bool.and_eq_true, Bool.not_eq_true'] at hd
    show getKey (notFold (setKey q k0 _) rest) k = _
    rw [ih _ hd.2]
    by_cases hk : k0 = k
    · subst hk
      simp [hasKey, hd.1, getKey, getKey_setKey]
    · have hk2 : ¬ k = k0 := fun hh => hk hh.symm
      by_cases hr : hasKey rest k
      · simp [hasKey, hr, getKey, hk, hk2]
      · simp [hasKey, hr, getKey, hk, hk2, getKey_setKey]

/-! ## Claim theorems -/

/-- Claim C1: CreateOrupdateByUniqueIndexes follows the three-way dispatch on
the result of create(data): a successful create returns the one-element list
holding the created entity; a failure carrying the well-known sentinel code
11000 proceeds to the reconciliation path; a failure with any other error
value is propagated unchanged. -/
theorem createOrupdate_create_dispatch (eng : EngineModel) (data : JsFields) :
    ((createA eng data).ok = true → ∀ d : JsFields, (createA eng data).data = some d →
      CreateOrupdateByUniqueIndexes eng data = ({ ok := true, data := some [d] }, {}))
    ∧ ((createA eng data).ok = false →
        errorCode11000 (createA eng data).error = Except.ok true →
        CreateOrupdateByUniqueIndexes eng data = reconcileUpsert eng data)
    ∧ ((createA eng data).ok = false →
        errorCode11000 (createA eng data).error = Except.ok false →
        CreateOrupdateByUniqueIndexes eng data
          = ({ ok := false, error := (createA eng data).error }, {})) := by
  refine ⟨fun hok d hd => ?_, fun hko hdup => ?_, fun hko hother => ?_⟩
  · simp [CreateOrupdateByUniqueIndexes, hok, hd]
  · simp [CreateOrupdateByUniqueIndexes, hko, hdup]
  · simp [CreateOrupdateByUniqueIndexes, hko, hother]

/-- Witness for C1: the three dispatch branches at concrete engines. -/
theorem createOrupdate_create_dispatch_witness :
    ((createA engCreateOk entW).ok = true ∧ (createA engCreateOk entW).data = some entW
      ∧ CreateOrupdateByUniqueIndexes engCreateOk entW
          = ({ ok := true, data := some [entW] }, {}))
    ∧ ((createA engDupEqual entW).ok = false
      ∧ errorCode11000 (createA engDupEqual entW).error = Except.ok true
      ∧ CreateOrupdateByUniqueIndexes engDupEqual entW = reconcileUpsert engDupEqual entW)
    ∧ ((createA engOtherErr entW).ok = false
      ∧ errorCode11000 (createA engOtherErr entW).error = Except.ok false
      ∧ CreateOrupdateByUniqueIndexes engOtherErr entW
          = ({ ok := false, error := (createA engOtherErr entW).error }, {})) :=
  ⟨⟨rfl, rfl, (createOrupdate_create_dispatch engCreateOk entW).1 rfl entW rfl⟩,
   ⟨rfl, rfl, (createOrupdate_create_dispatch engDupEqual entW).2.1 rfl rfl⟩,
   ⟨rfl, rfl, (createOrupdate_create_dispatch engOtherErr entW).2.2 rfl rfl⟩⟩

/-- Claim C2: upsert is idempotent with respect to writes. During
reconciliation an existing entity equal (whole-object) to the input is passed
through as-is and triggers no update call: when every found entity equals the
input the loop performs zero update calls and returns the found list
unchanged; in the general succeeding case equal entities are passed through
and only non-equal entities count an update call; and along the whole
pipeline a second call with identical data performs the find but no update. -/
theorem upsert_equal_entities_skip_update :
    (∀ (updRes : JsResult (List JsFields)) (data : JsFields) (existing : List JsFields),
      (∀ e ∈ existing, jsEqual e data = true) →
      upsertLoop updRes data existing = ({ ok := true, data := some existing }, 0))
    ∧ (∀ (updRes : JsResult (List JsFields)) (data : JsFields) (existing us : List JsFields),
      updRes.ok = true → updRes.data = some us →
      upsertLoop updRes data existing
        = ({ ok := true,
             data := some (existing.flatMap (fun e => if jsEqual e data then [e] else us)) },
           existing.countP (fun e => !jsEqual e data)))
    ∧ (∀ (eng : EngineModel) (data : JsFields) (qf existing : List JsFields),
      (createA eng data).ok = false →
      errorCode11000 (createA eng data).error = Except.ok true →
      (getQueryFilterByUniqueIndexes eng data).ok = true →
      (getQueryFilterByUniqueIndexes eng data).data = some qf →
      (findA eng qf).ok = true →
      (findA eng qf).data = some existing →
      (∀ e ∈ existing, jsEqual e data = true) →
      CreateOrupdateByUniqueIndexes eng data
        = ({ ok := true, data := some existing }, { findCalls := 1, updateCalls := 0 })) := by
  refine ⟨upsertLoop_all_equal, upsertLoop_success, ?_⟩
  intro eng data qf existing hko hdup hqo hqd hfo hfd hall
  simp [CreateOrupdateByUniqueIndexes, hko, hdup, reconcileUpsert, hqo, hqd, hfo, hfd,
    upsertLoop_all_equal _ _ _ hall]

/-- Witness for C2: at the concrete duplicate-and-equal engine the second
call returns the existing entity with one find and zero updates. -/
theorem upsert_equal_entities_skip_update_witness :
    ((∀ e ∈ [entW], jsEqual e entW = true)
      ∧ upsertLoop { ok := false } entW [entW] = ({ ok := true, data := some [entW] }, 0))
    ∧ CreateOrupdateByUniqueIndexes engDupEqual entW
        = ({ ok := true, data := some [entW] }, { findCalls := 1, updateCalls := 0 }) :=
  ⟨⟨by decide, upsert_equal_entities_skip_update.1 { ok := false } entW [entW] (by decide)⟩,
   upsert_equal_entities_skip_update.2.2 engDupEqual entW [entW] [entW]
     rfl rfl rfl rfl rfl rfl (by decide)⟩

/-- Claim C3: compiling a filter whose not field is present negates per
field, not logically. The compiler folds the compiled nested result onto the
accumulator (first conjunct), wrapping each of its fields in a $ne operator
(second conjunct, field-wise); compiling not over a single condition a = 1
yields a: ne 1 (third conjunct); and not over an or yields a $ne-wrapped $or
value, not De Morgan's conjunction of negations (last two conjuncts). -/
theorem buildQuery_not_negates_per_field :
    (∀ (conds : Option (List JsFields)) (andF orF : OptFilterList) (g : QueryFilter),
      buildQuery (.mk conds andF orF (.some g))
        = notFold (buildQuery (.mk conds andF orF .none)) (buildQuery g))
    ∧ (∀ (conds : Option (List JsFields)) (andF orF : OptFilterList) (g : QueryFilter)
        (k : String),
      getKey (buildQuery (.mk conds andF orF (.some g))) k
        = if hasKey (buildQuery g) k
          then .obj (.fcons "$ne" (getKey (buildQuery g) k) .nil)
          else getKey (buildQuery (.mk conds andF orF .none)) k)
    ∧ buildQuery (.mk Option.none .none .none
        (.some (.mk (Option.some [.fcons "a" (.num 1) .nil]) .none .none .none)))
        = .fcons "a" (.obj (.fcons "$ne" (.num 1) .nil)) .nil
    ∧ buildQuery notOverOrFilter
        = .fcons "$or" (.obj (.fcons "$ne"
            (.arr (.econs (.obj (.fcons "a" (.num 1) .nil))
                   (.econs (.obj (.fcons "b" (.num 2) .nil)) .enil))) .nil)) .nil
    ∧ decide (buildQuery notOverOrFilter = deMorganQuery) = false := by
  refine ⟨fun conds andF orF g => rfl, fun conds andF orF g k => ?_, by decide, by decide,
    by decide⟩
  exact getKey_notFold (buildQuery g) (buildQuery (.mk conds andF orF .none)) k
    (distinctKeys_buildQuery g)

/-- Claim C4 counterexample: an eager singleton registration whose supplied
beforeCreate hook fails returns the descriptive failure, but the instance is
NOT stored, contradicting the claim that the instance is still stored for
every registration mode. -/
theorem register_beforeCreate_failure_not_stored :
    (register emptyC "k" dsA optsBeforeFail).1.ok = false
    ∧ (register emptyC "k" dsA optsBeforeFail).1.error
        = some (.str "Error in beforeCreate lifecycle callback for \x27k\x27: hook failed")
    ∧ mapHas (register emptyC "k" dsA optsBeforeFail).2.instances "k" = false :=
  ⟨rfl, rfl, rfl⟩

/-- Claim C4 as amended: a supplied afterCreate hook that fails makes
register return the descriptive failure naming the key and the hook while
the instance is nevertheless stored (transient and singleton alike); a
supplied beforeCreate hook that fails in eager mode makes register return
the descriptive failure with the instance NOT stored; and in lazy singleton
mode a failing beforeCreate does not affect registration at all (it succeeds
and stores the factory wrapper; the hook failure surfaces at resolve time). -/
theorem register_hook_failure_storage (c : Container) (key : String) (ds : DSInstance)
    (opts : ContainerOptions) (rb ra : JsResult Unit) :
    (opts.singleton = some false →
     (opts.lifecycle.bind fun l => l.beforeCreate) = Option.none →
     (opts.lifecycle.bind fun l => l.afterCreate) = some ra → ra.ok = false →
     register c key ds opts
       = ({ ok := false, error := some (.str (afterCreateMsg key ra.error)) },
          .mk (mapSet c.instances key
            (if opts.lazy.getD false then .lazyTransientWrap ds else .direct ds)) c.children))
    ∧ (opts.singleton = some false →
       (opts.lifecycle.bind fun l => l.beforeCreate) = some rb → rb.ok = false →
       register c key ds opts
         = ({ ok := false, error := some (.str (beforeCreateMsg key rb.error)) }, c))
    ∧ (opts.singleton.getD true = true → opts.lazy.getD false = false →
       mapHas c.instances key = false →
       (opts.lifecycle.bind fun l => l.beforeCreate) = some rb → rb.ok = false →
       register c key ds opts
         = ({ ok := false, error := some (.str (beforeCreateMsg key rb.error)) }, c))
    ∧ (opts.singleton.getD true = true → opts.lazy.getD false = false →
       mapHas c.instances key = false →
       ((opts.lifecycle.bind fun l => l.beforeCreate) = Option.none ∨
        ∃ r0, (opts.lifecycle.bind fun l => l.beforeCreate) = some r0 ∧ r0.ok = true) →
       (opts.lifecycle.bind fun l => l.afterCreate) = some ra → ra.ok = false →
       register c key ds opts
         = ({ ok := false, error := some (.str (afterCreateMsg key ra.error)) },
            .mk (mapSet c.instances key (.direct ds)) c.children))
    ∧ (opts.singleton.getD true = true → opts.lazy.getD false = true →
       mapHas c.instances key = false →
       (opts.lifecycle.bind fun l => l.afterCreate) = Option.none →
       register c key ds opts
         = ({ ok := true },
            .mk (mapSet c.instances key (.lazySingletonWrap key opts.lifecycle ds))
              c.children)) := by
  obtain ⟨insts, children⟩ := c
  refine ⟨fun hs hbc hac hra => ?_, fun hs hbc hrb => ?_, fun hs hlz hfree hbc hrb => ?_,
    fun hs hlz hfree hbc hac hra => ?_, fun hs hlz hfree hac => ?_⟩
  · simp [register, hs, registerTransient, afterCreateCheck, hbc, hac, hra,
      Container.instances, Container.children]
  · simp [register, hs, registerTransient, hbc, hrb]
  · have hfree2 : mapHas insts key = false := by simpa [Container.instances] using hfree
    simp [register, hs, registerSingleton, hlz, hfree2, hbc, hrb]
  · have hfree2 : mapHas insts key = false := by simpa [Container.instances] using hfree
    rcases hbc with hbc | ⟨r0, hbc, hr0⟩
    · simp [register, hs, registerSingleton, hlz, hfree2, afterCreateCheck, hbc, hac, hra,
        Container.instances, Container.children]
    · simp [register, hs, registerSingleton, hlz, hfree2, afterCreateCheck, hbc, hr0, hac, hra,
        Container.instances, Container.children]
  · have hfree2 : mapHas insts key = false := by simpa [Container.instances] using hfree
    simp [register, hs, registerSingleton, hlz, hfree2, afterCreateCheck, hac,
      Container.instances, Container.children]

/-- Witness for the amended C4: the five behaviors at concrete
registrations. -/
theorem register_hook_failure_storage_witness :
    (register emptyC "k" dsA optsTransAfterFail
      = ({ ok := false, error := some (.str (afterCreateMsg "k" failHook.error)) },
         .mk [("k", .direct dsA)] .nil))
    ∧ (register emptyC "k" dsA optsTransBeforeFail
      = ({ ok := false, error := some (.str (beforeCreateMsg "k" failHook.error)) }, emptyC))
    ∧ (register emptyC "k" dsA optsBeforeFail
      = ({ ok := false, error := some (.str (beforeCreateMsg "k" failHook.error)) }, emptyC))
    ∧ (register emptyC "k" dsA optsAfterFail
      = ({ ok := false, error := some (.str (afterCreateMsg "k" failHook.error)) },
         .mk [("k", .direct dsA)] .nil))
    ∧ (register emptyC "k" dsA optsLazyBeforeFail
      = ({ ok := true },
         .mk [("k", .lazySingletonWrap "k" optsLazyBeforeFail.lifecycle dsA)] .nil)) :=
  ⟨(register_hook_failure_storage emptyC "k" dsA optsTransAfterFail failHook failHook).1
     rfl rfl rfl rfl,
   (register_hook_failure_storage emptyC "k" dsA optsTransBeforeFail failHook failHook).2.1
     rfl rfl rfl,
   (register_hook_failure_storage emptyC "k" dsA optsBeforeFail failHook failHook).2.2.1
     rfl rfl rfl rfl rfl,
   (register_hook_failure_storage emptyC "k" dsA optsAfterFail failHook failHook).2.2.2.1
     rfl rfl rfl (Or.inl rfl) rfl rfl,
   (register_hook_failure_storage emptyC "k" dsA optsLazyBeforeFail failHook failHook).2.2.2.2
     rfl rfl rfl rfl⟩

/-- Claim C5: destroy invokes the onDestroy hook of every local instance
that has one (their results are exactly the filtered hook list, in order),
recursively destroys every child, always clears the instance map and the
child list, and on any failure returns a single combined failure whose error
is the newline-join of the failing results while the container still ends
up empty. -/
theorem destroy_aggregates_and_clears (c : Container) :
    (destroy c).2 = Container.mk [] .nil
    ∧ destroyLocal c.instances = c.instances.filterMap (fun p => storedHook p.2)
    ∧ destroyChildren c.children
        = (containersToList c.children).map (fun child => (destroy child).1)
    ∧ (destroy c).1.ok
        = (destroyLocal c.instances ++ destroyChildren c.children).all (fun r => r.ok)
    ∧ ((destroyLocal c.instances ++ destroyChildren c.children).all (fun r => r.ok) = false →
      (destroy c).1
        = { ok := false,
            error := some (.str (String.intercalate "\n"
              (((destroyLocal c.instances ++ destroyChildren c.children).filter
                  (fun r => !r.ok)).map destroyMsg))) }) := by
  obtain ⟨insts, children⟩ := c
  refine ⟨rfl, destroyLocal_filterMap insts, destroyChildren_map children, ?_, ?_⟩
  · cases hall : (destroyLocal insts ++ destroyChildren children).all (fun r => r.ok) <;>
      simp [destroy, aggregateDestroy, Container.instances, Container.children, hall]
  · intro hfail
    simp only [Container.instances, Container.children] at hfail ⊢
    simp [destroy, aggregateDestroy, hfail]
    rfl

/-- Witness for C5: a container with one failing instance hook and one clean
child returns the combined failure and ends up empty. -/
theorem destroy_aggregates_and_clears_witness :
    ((destroyLocal cDemo.instances ++ destroyChildren cDemo.children).all (fun r => r.ok)
        = false)
    ∧ (destroy cDemo).1 = { ok := false, error := some (.str "x") }
    ∧ (destroy cDemo).2 = Container.mk [] .nil :=
  ⟨rfl, by rw [(destroy_aggregates_and_clears cDemo).2.2.2.2 rfl]; rfl,
   (destroy_aggregates_and_clears cDemo).1⟩

/-- Claim C6 counterexample: a transient registration under an existing key
whose beforeCreate hook fails does NOT succeed and does not replace the
stored instance, so a transient registration does not always succeed. -/
theorem transient_register_not_always_succeeds :
    (register c6base "k" dsB optsTransBeforeFail).1.ok = false
    ∧ (register c6base "k" dsB optsTransBeforeFail).2 = c6base :=
  ⟨rfl, rfl⟩

/-- Claim C6 as amended: a second singleton registration under an existing
key fails with the already-registered message and leaves the container
unchanged; a directly stored first instance stays resolvable unchanged; and
a transient registration is never rejected for the key being present — when
its hooks are absent or succeed it succeeds and silently replaces the stored
instance. -/
theorem singleton_rejects_transient_replaces :
    (∀ (c : Container) (key : String) (ds : DSInstance) (opts : ContainerOptions),
      opts.singleton.getD true = true → mapHas c.instances key = true →
      register c key ds opts
        = ({ ok := false,
             error := some (.str
               ("Singleton with key \x27" ++ key ++ "\x27 is already registered.")) },
           c))
    ∧ (∀ (c : Container) (key : String) (ds1 : DSInstance),
      mapGet c.instances key = some (.direct ds1) →
      resolve c key = ({ ok := true, data := some ds1 }, 0))
    ∧ (∀ (c : Container) (key : String) (ds : DSInstance) (opts : ContainerOptions),
      opts.singleton = some false →
      (∀ r0, (opts.lifecycle.bind fun l => l.beforeCreate) = some r0 → r0.ok = true) →
      (∀ r0, (opts.lifecycle.bind fun l => l.afterCreate) = some r0 → r0.ok = true) →
      (register c key ds opts).1 = { ok := true }
      ∧ mapGet (register c key ds opts).2.instances key
          = some (if opts.lazy.getD false then .lazyTransientWrap ds else .direct ds)) := by
  refine ⟨fun c key ds opts hs hhas => ?_, fun c key ds1 hget => ?_,
    fun c key ds opts hs hbc hac => ?_⟩
  · obtain ⟨insts, children⟩ := c
    simp only [Container.instances] at hhas
    simp [register, hs, registerSingleton, hhas]
  · obtain ⟨insts, children⟩ := c
    simp only [Container.instances] at hget
    simp [resolve, hget, evalStored]
  · obtain ⟨insts, children⟩ := c
    cases hbcv : (opts.lifecycle.bind fun l => l.beforeCreate) with
    | none =>
      cases hacv : (opts.lifecycle.bind fun l => l.afterCreate) with
      | none =>
        simp [register, hs, registerTransient, afterCreateCheck, hbcv, hacv,
          Container.instances, mapGet_mapSet_self]
      | some r0 =>
        have := hac r0 hacv
        simp [register, hs, registerTransient, afterCreateCheck, hbcv, hacv, this,
          Container.instances, mapGet_mapSet_self]
    | some r0 =>
      have hr0 := hbc r0 hbcv
      cases hacv : (opts.lifecycle.bind fun l => l.afterCreate) with
      | none =>
        simp [register, hs, registerTransient, afterCreateCheck, hbcv, hr0, hacv,
          Container.instances, mapGet_mapSet_self]
      | some r1 =>
        have hr1 := hac r1 hacv
        simp [register, hs, registerTransient, afterCreateCheck, hbcv, hr0, hacv, hr1,
          Container.instances, mapGet_mapSet_self]

/-- Witness for the amended C6 at a container holding key k. -/
theorem singleton_rejects_transient_replaces_witness :
    (register c6base "k" dsB {}
      = ({ ok := false,
           error := some (.str "Singleton with key \x27k\x27 is already registered.") },
         c6base))
    ∧ resolve c6base "k" = ({ ok := true, data := some dsA }, 0)
    ∧ (register c6base "k" dsB optsTrans).1 = { ok := true }
    ∧ mapGet (register c6base "k" dsB optsTrans).2.instances "k" = some (.direct dsB) :=
  ⟨singleton_rejects_transient_replaces.1 c6base "k" dsB {} rfl rfl,
   singleton_rejects_transient_replaces.2.1 c6base "k" dsA rfl,
   (singleton_rejects_transient_replaces.2.2 c6base "k" dsB optsTrans rfl
     (fun _ h => Option.noConfusion h) (fun _ h => Option.noConfusion h)).1,
   (singleton_rejects_transient_replaces.2.2 c6base "k" dsB optsTrans rfl
     (fun _ h => Option.noConfusion h) (fun _ h => Option.noConfusion h)).2⟩

/-- Claim C7 counterexample: with the getUniqueIndexes capability absent the
upsert fails without find or update, but the reported error is the
AbstractDatastore message, not the claimed failed-to-fetch message. -/
theorem reconcile_absent_capability_message :
    (CreateOrupdateByUniqueIndexes engNoUnique entW).1.ok = false
    ∧ (CreateOrupdateByUniqueIndexes engNoUnique entW).1.error
        = some (.str "getUniqueIndexes is not implemented")
    ∧ decide ((CreateOrupdateByUniqueIndexes engNoUnique entW).1.error
        = some (.str "Failed to fetch unique indexes")) = false :=
  ⟨rfl, rfl, by decide⟩

/-- Claim C7 as amended: once the constraint violation put the upsert in the
reconciliation path, an absent getUniqueIndexes capability, a failing call,
an empty index list, or zero buildable conditions each terminate with a
failure and zero find and update calls; the error is the not-implemented
message when the capability is absent, the fetched error when truthy and the
failed-to-fetch fallback otherwise, and the zero-conditions failure carries
no error value. -/
theorem reconcile_unique_index_failures (eng : EngineModel) (data : JsFields)
    (r : JsResult (List String)) (idxs : List String)
    (hko : (createA eng data).ok = false)
    (hdup : errorCode11000 (createA eng data).error = Except.ok true) :
    (eng.getUniqueIndexes = Option.none →
      CreateOrupdateByUniqueIndexes eng data
        = ({ ok := false, error := some (.str "getUniqueIndexes is not implemented") },
           { findCalls := 0, updateCalls := 0 }))
    ∧ (eng.getUniqueIndexes = some r → r.ok = false →
      CreateOrupdateByUniqueIndexes eng data
        = ({ ok := false,
             error := some (errOrElse r.error (.str "Failed to fetch unique indexes")) },
           { findCalls := 0, updateCalls := 0 }))
    ∧ (eng.getUniqueIndexes = some r → r.ok = true → r.data = some [] →
      CreateOrupdateByUniqueIndexes eng data
        = ({ ok := false,
             error := some (errOrElse r.error (.str "Failed to fetch unique indexes")) },
           { findCalls := 0, updateCalls := 0 }))
    ∧ (eng.getUniqueIndexes = some r → r.ok = true → r.data = some idxs → idxs ≠ [] →
      (∀ i ∈ idxs, getKey data i = JsValue.undef) →
      CreateOrupdateByUniqueIndexes eng data
        = ({ ok := false, data := none, error := none },
           { findCalls := 0, updateCalls := 0 })) := by
  refine ⟨fun hu => ?_, fun hu hro => ?_, fun hu hro hrd => ?_, fun hu hro hrd hne hall => ?_⟩
  · simp [CreateOrupdateByUniqueIndexes, hko, hdup, reconcileUpsert,
      getQueryFilterByUniqueIndexes, getUniqueIndexesA, hu, errOrElse, jsTruthy]
  · simp [CreateOrupdateByUniqueIndexes, hko, hdup, reconcileUpsert,
      getQueryFilterByUniqueIndexes, getUniqueIndexesA, hu, hro]
  · simp [CreateOrupdateByUniqueIndexes, hko, hdup, reconcileUpsert,
      getQueryFilterByUniqueIndexes, getUniqueIndexesA, hu, hro, hrd]
  · have hq := gqc_all_undef data idxs hne hall
    simp [CreateOrupdateByUniqueIndexes, hko, hdup, reconcileUpsert,
      getQueryFilterByUniqueIndexes, getUniqueIndexesA, hu, hro, hrd, hq, hne]

/-- Witness for the amended C7: the four failure modes at concrete
engines. -/
theorem reconcile_unique_index_failures_witness :
    (CreateOrupdateByUniqueIndexes engNoUnique entW
      = ({ ok := false, error := some (.str "getUniqueIndexes is not implemented") },
         { findCalls := 0, updateCalls := 0 }))
    ∧ (CreateOrupdateByUniqueIndexes engUniqueFails entW
      = ({ ok := false, error := some (.str "boom") }, { findCalls := 0, updateCalls := 0 }))
    ∧ (CreateOrupdateByUniqueIndexes engUniqueEmpty entW
      = ({ ok := false, error := some (.str "Failed to fetch unique indexes") },
         { findCalls := 0, updateCalls := 0 }))
    ∧ (CreateOrupdateByUniqueIndexes engNoFields entW
      = ({ ok := false, data := none, error := none },
         { findCalls := 0, updateCalls := 0 })) :=
  ⟨(reconcile_unique_index_failures engNoUnique entW { ok := true } [] rfl rfl).1 rfl,
   (reconcile_unique_index_failures engUniqueFails entW
       { ok := false, error := some (.str "boom") } [] rfl rfl).2.1 rfl rfl,
   (reconcile_unique_index_failures engUniqueEmpty entW
       { ok := true, data := some [] } [] rfl rfl).2.2.1 rfl rfl rfl,
   (reconcile_unique_index_failures engNoFields entW
       { ok := true, data := some ["z"] } ["z"] rfl rfl).2.2.2
     rfl rfl rfl (by decide) (by decide)⟩

/-- Claim C8: compiling the conditions list is last-write-wins per field:
the conditions step is what buildQuery runs on a conditions-only filter; the
value of a field is the last condition whose first own key matches (exactly
one key per condition); a field is present exactly when some condition has
it as first own key; hence reordering the conditions never changes the set
of fields present. -/
theorem conditions_last_write_wins :
    (∀ cs : List JsFields,
      buildQuery (.mk (Option.some cs) .none .none .none) = condStep .nil (Option.some cs))
    ∧ (∀ (cs : List JsFields) (k : String),
      getKey (condStep .nil (Option.some cs)) k = lastWinsVal cs k JsValue.undef)
    ∧ (∀ (cs : List JsFields) (k : String),
      hasKey (condStep .nil (Option.some cs)) k = decide (k ∈ cs.map firstKey))
    ∧ (∀ cs cs' : List JsFields, List.Perm cs cs' → ∀ k : String,
      hasKey (condStep .nil (Option.some cs)) k
        = hasKey (condStep .nil (Option.some cs')) k) := by
  refine ⟨fun cs => rfl, fun cs k => ?_, fun cs k => ?_, fun cs cs' h k => ?_⟩
  · show getKey (cs.foldl condAssign .nil) k = _
    rw [getKey_condFold]
    rfl
  · show hasKey (cs.foldl condAssign .nil) k = _
    rw [hasKey_condFold]
    simp [hasKey]
  · show hasKey (cs.foldl condAssign .nil) k = hasKey (cs'.foldl condAssign .nil) k
    rw [hasKey_condFold, hasKey_condFold]
    congr 1
    exact decide_eq_decide.mpr (h.map firstKey).mem_iff

/-- Witness for C8: a concrete permutation keeps the field set, and with two
conditions on the same field the later one wins. -/
theorem conditions_last_write_wins_witness :
    hasKey (condStep .nil (Option.some
        [JsFields.fcons "a" (.num 1) .nil, JsFields.fcons "b" (.num 2) .nil])) "b"
      = hasKey (condStep .nil (Option.some
        [JsFields.fcons "b" (.num 2) .nil, JsFields.fcons "a" (.num 1) .nil])) "b"
    ∧ getKey (condStep .nil (Option.some
        [JsFields.fcons "a" (.num 1) .nil, JsFields.fcons "a" (.num 3) .nil])) "a" = .num 3 :=
  ⟨conditions_last_write_wins.2.2.2 _ _ (by decide) "b", by decide⟩

/-- Claim C9 counterexample: a lazily registered transient instance with a
beforeCreate hook stores the plain wrapper, and resolving it performs zero
beforeCreate invocations — resolution does not run the hook, contradicting
the claim for every lazily registered instance. -/
theorem lazy_transient_resolve_skips_hook :
    (register emptyC "k" dsA optsLazyTransB).1.ok = true
    ∧ mapGet (register emptyC "k" dsA optsLazyTransB).2.instances "k"
        = some (.lazyTransientWrap dsA)
    ∧ resolve (register emptyC "k" dsA optsLazyTransB).2 "k"
        = ({ ok := true, data := some dsA }, 0) :=
  ⟨rfl, rfl, rfl⟩

/-- Claim C9 as amended: for lazy singleton registrations the claim holds: a
lazy singleton registration stores the factory wrapper, invoking the wrapper
performs exactly one beforeCreate invocation when the hook is supplied, and
every resolution of such an instance invokes the hook once — so two
resolutions invoke it twice and no result is memoized. A lazy transient
instance instead runs beforeCreate once at registration and never at
resolution. -/
theorem lazy_singleton_hook_each_resolve :
    (∀ (c : Container) (key : String) (ds : DSInstance) (lc : Lifecycle)
        (opts : ContainerOptions),
      opts.singleton.getD true = true → opts.lazy.getD false = true →
      opts.lifecycle = some lc → mapHas c.instances key = false →
      mapGet (register c key ds opts).2.instances key
        = some (.lazySingletonWrap key (some lc) ds))
    ∧ (∀ (key : String) (lc : Lifecycle) (ds : DSInstance) (rb : JsResult Unit),
      lc.beforeCreate = some rb →
      (evalStored (.lazySingletonWrap key (some lc) ds)).2 = 1)
    ∧ (∀ (c : Container) (key : String) (lc : Lifecycle) (ds : DSInstance)
        (rb : JsResult Unit),
      mapGet c.instances key = some (.lazySingletonWrap key (some lc) ds) →
      lc.beforeCreate = some rb →
      (resolve c key).2 = 1 ∧ (resolve c key).2 + (resolve c key).2 = 2) := by
  refine ⟨fun c key ds lc opts hs hlz hlc hfree => ?_, fun key lc ds rb hrb => ?_,
    fun c key lc ds rb hget hrb => ?_⟩
  · obtain ⟨insts, children⟩ := c
    simp only [Container.instances] at hfree
    cases hacv : lc.afterCreate with
    | none =>
      simp [register, hs, registerSingleton, hlz, hlc, hfree, afterCreateCheck, hacv,
        Container.instances, mapGet_mapSet_self]
    | some r0 =>
      cases hr0 : r0.ok <;>
        simp [register, hs, registerSingleton, hlz, hlc, hfree, afterCreateCheck, hacv, hr0,
          Container.instances, mapGet_mapSet_self]
  · cases hok : rb.ok <;> simp [evalStored, hrb, hok]
  · obtain ⟨insts, children⟩ := c
    simp only [Container.instances] at hget
    cases hok : rb.ok <;> simp [resolve, hget, evalStored, hrb, hok]

/-- Witness for the amended C9: the lazy singleton fixture invokes its hook
once per resolution. -/
theorem lazy_singleton_hook_each_resolve_witness :
    (mapGet (register emptyC "k" dsA optsLazySing).2.instances "k"
      = some (.lazySingletonWrap "k" (some lcB) dsA))
    ∧ (evalStored (.lazySingletonWrap "k" (some lcB) dsA)).2 = 1
    ∧ ((resolve cLazy "k").2 = 1 ∧ (resolve cLazy "k").2 + (resolve cLazy "k").2 = 2) :=
  ⟨lazy_singleton_hook_each_resolve.1 emptyC "k" dsA lcB optsLazySing rfl rfl rfl rfl,
   lazy_singleton_hook_each_resolve.2.1 "k" lcB dsA okHook rfl,
   lazy_singleton_hook_each_resolve.2.2 cLazy "k" lcB dsA okHook rfl rfl⟩

/-- Claim C10: with an undefined or empty unique-index list the exported
helper GetQueryConditionsByUniqueIndexes returns a success whose data is the
one-element list holding the shallow copy of the whole data object — not a
failure. -/
theorem gqc_empty_indexes_full_copy (data : JsFields) :
    GetQueryConditionsByUniqueIndexes data Option.none
      = { ok := true, data := some [data], error := none }
    ∧ GetQueryConditionsByUniqueIndexes data (Option.some [])
      = { ok := true, data := some [data], error := none } :=
  ⟨rfl, rfl⟩
